import Mathlib

set_option maxRecDepth 8000

/-!
Shallow embedding of the p2p handshake server (src/p2p/server.py).

The file models the responder-side handshake flow: `decode_authentication`
(length-dispatched auth decode plus ephemeral-key recovery),
`Server.receive_handshake` (read, plain decode, EIP8 fallback, ack send,
secret derivation, peer registration) and `Server.stop`.

External collaborators (the two auth decoders from p2p.auth, ECDH agreement
from p2p.ecies, signature-based key recovery from eth_keys, and the
HandshakeResponder operations) are not part of src/; they are modelled as
opaque oracle functions gathered in `Crypto` and `HsOracle`, so every
theorem quantifies over their behaviour unless a claim pins it down.

Byte strings are `List Nat`.  Network reads are modelled by `streamRead`
over the full byte sequence the remote sends before EOF, following asyncio
`StreamReader.read` semantics: a non-negative count returns at most that
many bytes, a negative count reads until EOF.

Each operation additionally returns a trace of events (reads, decoder
calls, writes, drain, secret derivation, peer registration) so that
ordering and "never invoked" properties can be stated.
-/

/-- Byte strings, one `Nat` per byte. -/
abbrev Bytes := List Nat

/-- Modelled from the spec: the fixed minimum auth-message length constant
`ENCRYPTED_AUTH_MSG_LEN` imported from p2p.constants, which is not under
src/.  The spec fixes no numeric value and no claim depends on it; the
historical value 307 is used so witnesses are concrete. -/
def ENCRYPTED_AUTH_MSG_LEN : Nat := 307

/-- Modelled from the spec: `big_endian_to_int` from eth_utils (not under
src/), interpreting a byte string as a big-endian unsigned integer. -/
def big_endian_to_int (bs : Bytes) : Nat :=
  bs.foldl (fun acc b => 256 * acc + b) 0

/-- Modelled from the spec: the XOR utility `sxor` from p2p.utils (not
under src/), the byte-wise XOR of two equal-length byte strings. -/
def sxor (s1 s2 : Bytes) : Bytes :=
  List.zipWith Nat.xor s1 s2

/-- Errors surfaced by the handshake path.  `decryptionError` embeds the
`DecryptionError` exception class (the only class caught by the fallback in
`receive_handshake`); `lengthError` embeds the `ValueError` raised by
`decode_authentication` on short input; `formatError` and `recoveryError`
embed the remaining failure modes of the external decoders and of
signature recovery. -/
inductive AuthErr where
  | lengthError (n : Nat)
  | decryptionError
  | formatError
  | recoveryError
  deriving DecidableEq, Repr

/-- Calls made by `decode_authentication` to the external collaborators. -/
inductive DecodeEv where
  | plainCall (ct : Bytes)
  | eip8Call (ct : Bytes)
  | ecdhCall (pubkey : Bytes)
  | recoverCall (sig msgHash : Bytes)
  deriving DecidableEq, Repr

/-- Oracle bundle for the external cryptographic collaborators used by
`decode_authentication`: the two auth decoders (each returning signature,
initiator pubkey, initiator nonce and a trailing version field), ECDH
agreement, and signature-based public-key recovery from a message hash. -/
structure Crypto where
  decode_auth_plain : Bytes → Bytes → Except AuthErr (Bytes × Bytes × Bytes × Nat)
  decode_auth_eip8 : Bytes → Bytes → Except AuthErr (Bytes × Bytes × Bytes × Nat)
  ecdh_agree : Bytes → Bytes → Bytes
  recover : Bytes → Bytes → Except AuthErr Bytes

/-- Embedding of `decode_authentication(ciphertext, privkey)` from
src/p2p/server.py, instrumented with the list of collaborator calls it
makes.  Length dispatch: shorter than `ENCRYPTED_AUTH_MSG_LEN` raises a
`ValueError`; equal uses `decode_auth_plain`; longer uses
`decode_auth_eip8`.  On a successful decode it computes
`ecdh_agree(privkey, initiator_pubkey)`, XORs it with the initiator nonce
and recovers the ephemeral pubkey from the signature against that value as
the message hash. -/
def decode_authentication (C : Crypto) (ciphertext privkey : Bytes) :
    Except AuthErr (Bytes × Bytes × Bytes) × List DecodeEv :=
  if ciphertext.length < ENCRYPTED_AUTH_MSG_LEN then
    (.error (.lengthError ciphertext.length), [])
  else
    let dres :=
      if ciphertext.length = ENCRYPTED_AUTH_MSG_LEN then
        C.decode_auth_plain ciphertext privkey
      else
        C.decode_auth_eip8 ciphertext privkey
    let ev :=
      if ciphertext.length = ENCRYPTED_AUTH_MSG_LEN then
        DecodeEv.plainCall ciphertext
      else
        DecodeEv.eip8Call ciphertext
    match dres with
    | .error e => (.error e, [ev])
    | .ok (sig, initiator_pubkey, initiator_nonce, _) =>
        let shared_secret := C.ecdh_agree privkey initiator_pubkey
        let msg_hash := sxor shared_secret initiator_nonce
        ((C.recover sig msg_hash).map
            (fun ephem_pubkey => (ephem_pubkey, initiator_nonce, initiator_pubkey)),
         [ev, DecodeEv.ecdhCall initiator_pubkey, DecodeEv.recoverCall sig msg_hash])

/-- Whether a decode trace contains a call to the extended (EIP8) decoder. -/
def decHasEip8 (evs : List DecodeEv) : Bool :=
  evs.any fun d => match d with | .eip8Call _ => true | _ => false

/-- Whether a decode trace contains a call to the plain decoder. -/
def decHasPlain (evs : List DecodeEv) : Bool :=
  evs.any fun d => match d with | .plainCall _ => true | _ => false

/-- Boolean success test for `Except`. -/
def exceptIsOk : Except ε α → Bool
  | .ok _ => true
  | .error _ => false

/-- Network address (IP, TCP port), embedding `p2p.kademlia.Address` at the
granularity the server uses. -/
structure Address where
  ip : Nat
  tcp_port : Nat
  deriving DecidableEq, Repr

/-- Remote node identity: a public key bound to an address, embedding
`p2p.kademlia.Node` at the granularity the server uses. -/
structure Node where
  pubkey : Bytes
  address : Address
  deriving DecidableEq, Repr

/-- A registered peer, embedding the fields of `ETHPeer` that the server
computes (remote identity, local private key and the four derived session
secrets); the reader/writer handles, chain database and network id are
opaque runtime objects and are not modelled. -/
structure Peer where
  remote : Node
  privkey : Bytes
  aes_secret : Bytes
  mac_secret : Bytes
  egress_mac : Bytes
  ingress_mac : Bytes
  deriving DecidableEq, Repr

/-- Mutable state of a `Server`: the cancellation-token flag, the peers
registered in its `PeerPool`, and the nullable listening-socket handle
`_server` (class attribute initialised to `None`). -/
structure Server where
  cancel_token_triggered : Bool
  peers : List Peer
  _server : Option Unit
  deriving DecidableEq, Repr

/-- A freshly constructed server: token untriggered, no peers, `_server`
still the class-level `None`. -/
def mkServer : Server :=
  { cancel_token_triggered := false, peers := [], _server := none }

/-- Embedding of `Server.start`: assigns the listening-socket handle. -/
def startServer (s : Server) : Server :=
  { s with _server := some () }

/-- Observable events of one `receive_handshake` run: stream reads (the
requested count and the bytes obtained), decoder/crypto calls (`dec`),
writes, the drain of the writer, the `derive_secrets` call with its five
byte-string arguments, and peer registration. -/
inductive HsEv where
  | readEv (n : Int) (got : Bytes)
  | dec (d : DecodeEv)
  | writeEv (data : Bytes)
  | drainEv
  | deriveEv (initiator_nonce responder_nonce ephem_pubkey auth_init auth_ack : Bytes)
  | addPeerEv (p : Peer)
  deriving DecidableEq, Repr

/-- Oracle bundle for the external `HandshakeResponder` operations, each
taking the remote node and local private key the responder was constructed
with.  `derive_secrets` takes initiator nonce, responder nonce, remote
ephemeral pubkey, auth-init ciphertext and auth-ack ciphertext, and
returns `(aes_secret, mac_secret, egress_mac, ingress_mac)`. -/
structure HsOracle where
  crypto : Crypto
  create_auth_ack_message : Node → Bytes → Bytes → Bytes
  encrypt_auth_ack_message : Node → Bytes → Bytes → Bytes
  derive_secrets : Node → Bytes → Bytes → Bytes → Bytes → Bytes → Bytes → Bytes × Bytes × Bytes × Bytes

/-- Modelled from the spec: asyncio `StreamReader.read(n)` over the full
byte sequence the remote sends before EOF.  A non-negative `n` returns at
most `n` bytes (all remaining bytes if fewer are available); a negative
`n` reads until EOF.  Returns the bytes obtained and the rest of the
stream. -/
def streamRead (stream : Bytes) (n : Int) : Bytes × Bytes :=
  if n < 0 then (stream, []) else (stream.take n.toNat, stream.drop n.toNat)

/-- The auth-decode stage of `Server.receive_handshake` (lines 84-96):
read `ENCRYPTED_AUTH_MSG_LEN` bytes, attempt `decode_authentication`, and
on a `DecryptionError` reinterpret the first two bytes as a big-endian
size, read `msg_size - ENCRYPTED_AUTH_MSG_LEN + 2` further bytes, append
them and retry `decode_authentication` on the concatenation.  Any other
first-attempt error, and any second-attempt error, propagates.  Returns
the decode outcome, the final message buffer, and the event trace. -/
def authAttempt (C : Crypto) (privkey stream : Bytes) :
    Except AuthErr (Bytes × Bytes × Bytes) × Bytes × List HsEv :=
  let msg := (streamRead stream (ENCRYPTED_AUTH_MSG_LEN : Int)).1
  let rest := (streamRead stream (ENCRYPTED_AUTH_MSG_LEN : Int)).2
  let first := decode_authentication C msg privkey
  let evs := HsEv.readEv (ENCRYPTED_AUTH_MSG_LEN : Int) msg :: first.2.map HsEv.dec
  match first.1 with
  | .ok p => (.ok p, msg, evs)
  | .error .decryptionError =>
      let msg_size := big_endian_to_int (msg.take 2)
      let remaining_bytes : Int := (msg_size : Int) - (ENCRYPTED_AUTH_MSG_LEN : Int) + 2
      let more := (streamRead rest remaining_bytes).1
      let msg2 := msg ++ more
      let second := decode_authentication C msg2 privkey
      (second.1, msg2,
       evs ++ HsEv.readEv remaining_bytes more :: second.2.map HsEv.dec)
  | .error e => (.error e, msg, evs)

/-- Embedding of `Server.receive_handshake`.  Besides the oracle bundle it
takes the local private key, the peername reported by the writer, the
fresh responder nonce (the result of `secrets.token_bytes(HASH_LEN)`, an
external random source), the inbound byte stream and the server state.
On a decode failure the exception propagates out of the per-connection
task: the state is returned unchanged.  On success it builds the remote
node, creates and encrypts the auth-ack, writes and drains it, derives
the four session secrets (initiator nonce, responder nonce, ephemeral
pubkey, full auth-init buffer, ack ciphertext) and registers the peer. -/
def receive_handshake (O : HsOracle) (privkey : Bytes) (peername : Address)
    (responder_nonce : Bytes) (stream : Bytes) (s : Server) :
    Except AuthErr Unit × Server × List HsEv :=
  match authAttempt O.crypto privkey stream with
  | (.error e, _, evs) => (.error e, s, evs)
  | (.ok (ephem_pubkey, initiator_nonce, initiator_pubkey), msg, evs) =>
      let initiator_remote : Node := ⟨initiator_pubkey, peername⟩
      let auth_ack_msg := O.create_auth_ack_message initiator_remote privkey responder_nonce
      let auth_ack_ciphertext := O.encrypt_auth_ack_message initiator_remote privkey auth_ack_msg
      let sres := O.derive_secrets initiator_remote privkey initiator_nonce responder_nonce
        ephem_pubkey msg auth_ack_ciphertext
      let eth_peer : Peer :=
        ⟨initiator_remote, privkey, sres.1, sres.2.1, sres.2.2.1, sres.2.2.2⟩
      (.ok (), { s with peers := s.peers ++ [eth_peer] },
       evs ++ [HsEv.writeEv auth_ack_ciphertext, HsEv.drainEv,
               HsEv.deriveEv initiator_nonce responder_nonce ephem_pubkey msg auth_ack_ciphertext,
               HsEv.addPeerEv eth_peer])

/-- Event predicate: a `derive_secrets` call. -/
def isDeriveEv : HsEv → Bool
  | .deriveEv _ _ _ _ _ => true
  | _ => false

/-- Event predicate: a peer registration. -/
def isAddPeerEv : HsEv → Bool
  | .addPeerEv _ => true
  | _ => false

/-- Event predicate: a call to the extended (EIP8) decoder. -/
def isEip8Ev : HsEv → Bool
  | .dec (.eip8Call _) => true
  | _ => false

/-- Number of `derive_secrets` calls in a handshake trace. -/
def countDerive (evs : List HsEv) : Nat := evs.countP isDeriveEv

/-- Number of peer registrations in a handshake trace. -/
def countAddPeer (evs : List HsEv) : Nat := evs.countP isAddPeerEv

/-- Whether a handshake trace contains an extended (EIP8) decode attempt. -/
def hasEip8Call (evs : List HsEv) : Bool := evs.any isEip8Ev

/-- Errors raised by `Server.stop`: dereferencing the `None` socket
handle raises an `AttributeError`. -/
inductive StopErr where
  | attributeError
  deriving DecidableEq, Repr

/-- Observable effects of `Server.stop`, in program order: the log line,
the cancellation-token trigger, closing the listening socket, waiting for
it to release its resources, and stopping the peer pool. -/
inductive StopEv where
  | logEv
  | triggerEv
  | closeEv
  | waitClosedEv
  | poolStopEv
  deriving DecidableEq, Repr

/-- Embedding of `Server.stop`: logs, triggers the cancellation token, and
then calls `self._server.close()`.  When `_server` is still `None` that
attribute access raises an `AttributeError` and neither the close/wait
pair nor `peer_pool.stop()` runs; the token however is already
triggered. -/
def stopServer (s : Server) : Except StopErr Unit × Server × List StopEv :=
  let s1 := { s with cancel_token_triggered := true }
  match s._server with
  | none => (.error .attributeError, s1, [StopEv.logEv, StopEv.triggerEv])
  | some _ =>
      (.ok (), s1,
       [StopEv.logEv, StopEv.triggerEv, StopEv.closeEv, StopEv.waitClosedEv, StopEv.poolStopEv])

/-- A concrete crypto oracle whose decoders always succeed with a fixed
payload; used to exercise success paths in witnesses. -/
def okCrypto : Crypto where
  decode_auth_plain := fun _ _ => .ok ([9], [8], [7], 0)
  decode_auth_eip8 := fun _ _ => .ok ([9], [8], [7], 1)
  ecdh_agree := fun _ _ => [5]
  recover := fun _ _ => .ok [6]

/-- A concrete crypto oracle whose plain decoder always fails with a
`DecryptionError` and whose extended decoder is self-describing: it
succeeds exactly when the leading two bytes declare the buffer's size
(total size = declared + 2) and fails with a format error otherwise. -/
def failCrypto : Crypto where
  decode_auth_plain := fun _ _ => .error .decryptionError
  decode_auth_eip8 := fun ct _ =>
    if big_endian_to_int (ct.take 2) + 2 = ct.length then .ok ([9], [8], [7], 1)
    else .error .formatError
  ecdh_agree := fun _ _ => [5]
  recover := fun _ _ => .ok [6]

/-- Wrap a crypto oracle with simple concrete responder operations. -/
def mkOracle (C : Crypto) : HsOracle where
  crypto := C
  create_auth_ack_message := fun _ _ nonce => nonce
  encrypt_auth_ack_message := fun _ _ m => 0 :: m
  derive_secrets := fun _ _ a b c d e => (a, b, c ++ d, e)

/-- Oracle fixture for success-path witnesses. -/
def okOracle : HsOracle := mkOracle okCrypto

/-- Oracle fixture for failure-path witnesses. -/
def failOracle : HsOracle := mkOracle failCrypto

/-- Private-key fixture. -/
def pk0 : Bytes := [0]

/-- Peername fixture. -/
def addr0 : Address := ⟨1, 2⟩

/-- Responder-nonce fixture. -/
def rn0 : Bytes := [3]

/-- A stream of exactly the fixed minimum length. -/
def minLenStream : Bytes := List.replicate ENCRYPTED_AUTH_MSG_LEN 0

/-- A minimum-length stream whose leading two bytes declare a total size
of 356, so the fallback computes `remaining = 51` yet no byte is
available. -/
def c3CexStream : Bytes := 1 :: 100 :: List.replicate 305 0

/-- An extended-format stream: the leading two bytes declare 315, the
total stream is 317 bytes, so the fallback reads exactly 10 more bytes. -/
def c3WitStream : Bytes := 1 :: 59 :: List.replicate 305 0 ++ List.replicate 10 7

/-- A stream whose leading two bytes declare 0, making the fallback's
remaining count negative, with three extra bytes past the minimum. -/
def c4Stream : Bytes := 0 :: 0 :: List.replicate 305 1 ++ List.replicate 3 5

lemma streamRead_natCast (s : Bytes) (n : Nat) :
    streamRead s (n : Int) = (s.take n, s.drop n) := by
  simp [streamRead]

lemma streamRead_neg (s : Bytes) (n : Int) (h : n < 0) :
    streamRead s n = (s, []) := by
  simp [streamRead, h]

lemma streamRead_nil (n : Int) : streamRead [] n = ([], []) := by
  unfold streamRead
  split <;> simp

lemma decode_authentication_short (C : Crypto) (ct pk : Bytes)
    (h : ct.length < ENCRYPTED_AUTH_MSG_LEN) :
    decode_authentication C ct pk = (.error (.lengthError ct.length), []) := by
  simp [decode_authentication, h]

lemma decode_authentication_plain_err (C : Crypto) (ct pk : Bytes) (e : AuthErr)
    (h : ct.length = ENCRYPTED_AUTH_MSG_LEN)
    (he : C.decode_auth_plain ct pk = .error e) :
    decode_authentication C ct pk = (.error e, [DecodeEv.plainCall ct]) := by
  simp [decode_authentication, h, he]

lemma decode_authentication_plain_ok (C : Crypto) (ct pk sig ipk nonce : Bytes) (v : Nat)
    (h : ct.length = ENCRYPTED_AUTH_MSG_LEN)
    (ho : C.decode_auth_plain ct pk = .ok (sig, ipk, nonce, v)) :
    decode_authentication C ct pk =
      ((C.recover sig (sxor (C.ecdh_agree pk ipk) nonce)).map
          (fun ephem_pubkey => (ephem_pubkey, nonce, ipk)),
       [DecodeEv.plainCall ct, DecodeEv.ecdhCall ipk,
        DecodeEv.recoverCall sig (sxor (C.ecdh_agree pk ipk) nonce)]) := by
  simp [decode_authentication, h, ho]

lemma decode_authentication_eip8_err (C : Crypto) (ct pk : Bytes) (e : AuthErr)
    (h : ENCRYPTED_AUTH_MSG_LEN < ct.length)
    (he : C.decode_auth_eip8 ct pk = .error e) :
    decode_authentication C ct pk = (.error e, [DecodeEv.eip8Call ct]) := by
  have h1 : ¬ ct.length < ENCRYPTED_AUTH_MSG_LEN := by omega
  have h2 : ¬ ct.length = ENCRYPTED_AUTH_MSG_LEN := by omega
  simp [decode_authentication, h1, h2, he]

lemma decode_authentication_eip8_ok (C : Crypto) (ct pk sig ipk nonce : Bytes) (v : Nat)
    (h : ENCRYPTED_AUTH_MSG_LEN < ct.length)
    (ho : C.decode_auth_eip8 ct pk = .ok (sig, ipk, nonce, v)) :
    decode_authentication C ct pk =
      ((C.recover sig (sxor (C.ecdh_agree pk ipk) nonce)).map
          (fun ephem_pubkey => (ephem_pubkey, nonce, ipk)),
       [DecodeEv.eip8Call ct, DecodeEv.ecdhCall ipk,
        DecodeEv.recoverCall sig (sxor (C.ecdh_agree pk ipk) nonce)]) := by
  have h1 : ¬ ct.length < ENCRYPTED_AUTH_MSG_LEN := by omega
  have h2 : ¬ ct.length = ENCRYPTED_AUTH_MSG_LEN := by omega
  simp [decode_authentication, h1, h2, ho]

lemma countP_dec_map (p : HsEv → Bool) (hp : ∀ d, p (HsEv.dec d) = false)
    (l : List DecodeEv) : (l.map HsEv.dec).countP p = 0 := by
  induction l with
  | nil => simp
  | cons d l ih => simp [List.countP_cons, hp, ih]

lemma authAttempt_first_ok (C : Crypto) (pk stream : Bytes) (p : Bytes × Bytes × Bytes)
    (dtr : List DecodeEv)
    (h : decode_authentication C (stream.take ENCRYPTED_AUTH_MSG_LEN) pk = (.ok p, dtr)) :
    authAttempt C pk stream =
      (.ok p, stream.take ENCRYPTED_AUTH_MSG_LEN,
       HsEv.readEv (ENCRYPTED_AUTH_MSG_LEN : Int) (stream.take ENCRYPTED_AUTH_MSG_LEN) ::
         dtr.map HsEv.dec) := by
  simp only [authAttempt, streamRead_natCast, h]

lemma authAttempt_first_err (C : Crypto) (pk stream : Bytes) (e : AuthErr)
    (dtr : List DecodeEv) (hne : e ≠ .decryptionError)
    (h : decode_authentication C (stream.take ENCRYPTED_AUTH_MSG_LEN) pk = (.error e, dtr)) :
    authAttempt C pk stream =
      (.error e, stream.take ENCRYPTED_AUTH_MSG_LEN,
       HsEv.readEv (ENCRYPTED_AUTH_MSG_LEN : Int) (stream.take ENCRYPTED_AUTH_MSG_LEN) ::
         dtr.map HsEv.dec) := by
  simp only [authAttempt, streamRead_natCast, h]

lemma authAttempt_fallback (C : Crypto) (pk stream : Bytes) (dtr : List DecodeEv)
    (h : decode_authentication C (stream.take ENCRYPTED_AUTH_MSG_LEN) pk =
           (.error .decryptionError, dtr)) :
    authAttempt C pk stream =
      (let msg := stream.take ENCRYPTED_AUTH_MSG_LEN
       let remaining : Int :=
         (big_endian_to_int (msg.take 2) : Int) - (ENCRYPTED_AUTH_MSG_LEN : Int) + 2
       let more := (streamRead (stream.drop ENCRYPTED_AUTH_MSG_LEN) remaining).1
       let msg2 := msg ++ more
       ((decode_authentication C msg2 pk).1, msg2,
        (HsEv.readEv (ENCRYPTED_AUTH_MSG_LEN : Int) msg :: dtr.map HsEv.dec) ++
          HsEv.readEv remaining more :: (decode_authentication C msg2 pk).2.map HsEv.dec)) := by
  simp only [authAttempt, streamRead_natCast, h]

lemma authAttempt_counts (C : Crypto) (pk stream : Bytes) :
    countDerive (authAttempt C pk stream).2.2 = 0 ∧
    countAddPeer (authAttempt C pk stream).2.2 = 0 := by
  have hder : ∀ d, isDeriveEv (HsEv.dec d) = false := fun d => rfl
  have hadd : ∀ d, isAddPeerEv (HsEv.dec d) = false := fun d => rfl
  simp only [authAttempt, streamRead_natCast]
  cases hd : (decode_authentication C (stream.take ENCRYPTED_AUTH_MSG_LEN) pk).1 with
  | ok p =>
      simp [countDerive, countAddPeer, List.countP_cons, countP_dec_map, hder, hadd,
        isDeriveEv, isAddPeerEv]
  | error e =>
      cases e <;>
        simp [countDerive, countAddPeer, List.countP_cons, List.countP_append,
          countP_dec_map, hder, hadd, isDeriveEv, isAddPeerEv]

/-- C5: a ciphertext shorter than `ENCRYPTED_AUTH_MSG_LEN` makes
`decode_authentication` fail with the length error, and the empty call
trace shows that neither decoder, nor ECDH agreement, nor signature-based
key recovery is invoked. -/
theorem decode_authentication_short_length_error (C : Crypto) (ct pk : Bytes)
    (h : ct.length < ENCRYPTED_AUTH_MSG_LEN) :
    decode_authentication C ct pk = (.error (.lengthError ct.length), []) :=
  decode_authentication_short C ct pk h

/-- Witness for C5 at the empty ciphertext and a concrete oracle. -/
theorem decode_authentication_short_length_error_witness :
    ([] : Bytes).length < ENCRYPTED_AUTH_MSG_LEN ∧
    decode_authentication okCrypto [] pk0 = (.error (.lengthError 0), []) :=
  ⟨by decide, decode_authentication_short_length_error okCrypto [] pk0 (by decide)⟩

/-- C6: `decode_authentication` dispatches solely on ciphertext length:
at exactly `ENCRYPTED_AUTH_MSG_LEN` the plain decoder is the first (and
only) decoder called and any error it raises (in particular a decryption
error) is the function's result; above `ENCRYPTED_AUTH_MSG_LEN` the
extended decoder is the first (and only) decoder called and any error it
raises (decryption or format) is the function's result. -/
theorem decode_authentication_length_dispatch (C : Crypto) (ct pk : Bytes) :
    (ct.length = ENCRYPTED_AUTH_MSG_LEN →
       (decode_authentication C ct pk).2.head? = some (DecodeEv.plainCall ct) ∧
       decHasEip8 (decode_authentication C ct pk).2 = false ∧
       (∀ e : AuthErr, C.decode_auth_plain ct pk = .error e →
          (decode_authentication C ct pk).1 = .error e)) ∧
    (ENCRYPTED_AUTH_MSG_LEN < ct.length →
       (decode_authentication C ct pk).2.head? = some (DecodeEv.eip8Call ct) ∧
       decHasPlain (decode_authentication C ct pk).2 = false ∧
       (∀ e : AuthErr, C.decode_auth_eip8 ct pk = .error e →
          (decode_authentication C ct pk).1 = .error e)) := by
  constructor
  · intro h
    rcases hd : C.decode_auth_plain ct pk with e' | ⟨sig, ipk, nonce, v⟩
    · rw [decode_authentication_plain_err C ct pk e' h hd]
      refine ⟨rfl, rfl, ?_⟩
      intro e he
      simpa using he
    · rw [decode_authentication_plain_ok C ct pk sig ipk nonce v h hd]
      refine ⟨rfl, rfl, ?_⟩
      intro e he
      exact Except.noConfusion he
  · intro h
    rcases hd : C.decode_auth_eip8 ct pk with e' | ⟨sig, ipk, nonce, v⟩
    · rw [decode_authentication_eip8_err C ct pk e' h hd]
      refine ⟨rfl, rfl, ?_⟩
      intro e he
      simpa using he
    · rw [decode_authentication_eip8_ok C ct pk sig ipk nonce v h hd]
      refine ⟨rfl, rfl, ?_⟩
      intro e he
      exact Except.noConfusion he

/-- Witness for C6: at a minimum-length buffer the (failing) plain decoder
is called and its decryption error propagates; at a 308-byte buffer the
extended decoder is called and its format error propagates. -/
theorem decode_authentication_length_dispatch_witness :
    ((decode_authentication failCrypto minLenStream pk0).2.head? =
        some (DecodeEv.plainCall minLenStream) ∧
     decHasEip8 (decode_authentication failCrypto minLenStream pk0).2 = false ∧
     (decode_authentication failCrypto minLenStream pk0).1 = .error .decryptionError) ∧
    ((decode_authentication failCrypto (0 :: minLenStream) pk0).2.head? =
        some (DecodeEv.eip8Call (0 :: minLenStream)) ∧
     decHasPlain (decode_authentication failCrypto (0 :: minLenStream) pk0).2 = false ∧
     (decode_authentication failCrypto (0 :: minLenStream) pk0).1 = .error .formatError) := by
  have h1 := (decode_authentication_length_dispatch failCrypto minLenStream pk0).1 (by decide)
  have h2 := (decode_authentication_length_dispatch failCrypto (0 :: minLenStream) pk0).2 (by decide)
  exact ⟨⟨h1.1, h1.2.1, h1.2.2 .decryptionError (by rfl)⟩,
         ⟨h2.1, h2.2.1, h2.2.2 .formatError (by rfl)⟩⟩

/-- C2: whenever the length-selected decoder succeeds with a signature,
initiator pubkey and initiator nonce, `decode_authentication` computes the
ECDH shared secret of the local private key and the initiator pubkey,
XORs it with the initiator nonce, and recovers the ephemeral pubkey from
the signature against that value as the message hash; its call trace is
exactly decoder call, ECDH agreement, recovery. -/
theorem decode_authentication_recovers_from_xor (C : Crypto) (ct pk sig ipk nonce : Bytes)
    (v : Nat) (hge : ENCRYPTED_AUTH_MSG_LEN ≤ ct.length)
    (hdec : (if ct.length = ENCRYPTED_AUTH_MSG_LEN then C.decode_auth_plain ct pk
             else C.decode_auth_eip8 ct pk) = .ok (sig, ipk, nonce, v)) :
    decode_authentication C ct pk =
      ((C.recover sig (sxor (C.ecdh_agree pk ipk) nonce)).map
          (fun ephem_pubkey => (ephem_pubkey, nonce, ipk)),
       [(if ct.length = ENCRYPTED_AUTH_MSG_LEN then DecodeEv.plainCall ct
         else DecodeEv.eip8Call ct),
        DecodeEv.ecdhCall ipk,
        DecodeEv.recoverCall sig (sxor (C.ecdh_agree pk ipk) nonce)]) := by
  by_cases h : ct.length = ENCRYPTED_AUTH_MSG_LEN
  · rw [if_pos h] at hdec
    simp only [if_pos h]
    exact decode_authentication_plain_ok C ct pk sig ipk nonce v h hdec
  · have hlt : ENCRYPTED_AUTH_MSG_LEN < ct.length := by omega
    rw [if_neg h] at hdec
    simp only [if_neg h]
    exact decode_authentication_eip8_ok C ct pk sig ipk nonce v hlt hdec

/-- Witness for C2 at a concrete succeeding oracle and a minimum-length
ciphertext. -/
theorem decode_authentication_recovers_from_xor_witness :
    ENCRYPTED_AUTH_MSG_LEN ≤ minLenStream.length ∧
    decode_authentication okCrypto minLenStream pk0 =
      ((okCrypto.recover [9] (sxor (okCrypto.ecdh_agree pk0 [8]) [7])).map
          (fun ephem_pubkey => (ephem_pubkey, [7], [8])),
       [(if minLenStream.length = ENCRYPTED_AUTH_MSG_LEN then DecodeEv.plainCall minLenStream
         else DecodeEv.eip8Call minLenStream),
        DecodeEv.ecdhCall [8],
        DecodeEv.recoverCall [9] (sxor (okCrypto.ecdh_agree pk0 [8]) [7])]) :=
  ⟨by decide,
   decode_authentication_recovers_from_xor okCrypto minLenStream pk0 [9] [8] [7] 0
     (by decide) (by rfl)⟩

lemma receive_handshake_error_case (O : HsOracle) (pk : Bytes) (pn : Address)
    (rn : Bytes) (stream : Bytes) (s : Server) (e : AuthErr)
    (h : (authAttempt O.crypto pk stream).1 = .error e) :
    receive_handshake O pk pn rn stream s =
      (.error e, s, (authAttempt O.crypto pk stream).2.2) := by
  unfold receive_handshake
  rcases hA : authAttempt O.crypto pk stream with ⟨res, m, evs⟩
  rw [hA] at h
  simp only at h
  subst h
  rfl

lemma receive_handshake_ok_case (O : HsOracle) (pk : Bytes) (pn : Address)
    (rn : Bytes) (stream : Bytes) (s : Server) (ephem n1 ipk msgF : Bytes)
    (evs : List HsEv)
    (h : authAttempt O.crypto pk stream = (.ok (ephem, n1, ipk), msgF, evs)) :
    receive_handshake O pk pn rn stream s =
      (.ok (),
       { s with peers := s.peers ++
           [⟨⟨ipk, pn⟩, pk,
             (O.derive_secrets ⟨ipk, pn⟩ pk n1 rn ephem msgF
               (O.encrypt_auth_ack_message ⟨ipk, pn⟩ pk
                 (O.create_auth_ack_message ⟨ipk, pn⟩ pk rn))).1,
             (O.derive_secrets ⟨ipk, pn⟩ pk n1 rn ephem msgF
               (O.encrypt_auth_ack_message ⟨ipk, pn⟩ pk
                 (O.create_auth_ack_message ⟨ipk, pn⟩ pk rn))).2.1,
             (O.derive_secrets ⟨ipk, pn⟩ pk n1 rn ephem msgF
               (O.encrypt_auth_ack_message ⟨ipk, pn⟩ pk
                 (O.create_auth_ack_message ⟨ipk, pn⟩ pk rn))).2.2.1,
             (O.derive_secrets ⟨ipk, pn⟩ pk n1 rn ephem msgF
               (O.encrypt_auth_ack_message ⟨ipk, pn⟩ pk
                 (O.create_auth_ack_message ⟨ipk, pn⟩ pk rn))).2.2.2⟩] },
       evs ++
         [HsEv.writeEv (O.encrypt_auth_ack_message ⟨ipk, pn⟩ pk
            (O.create_auth_ack_message ⟨ipk, pn⟩ pk rn)),
          HsEv.drainEv,
          HsEv.deriveEv n1 rn ephem msgF
            (O.encrypt_auth_ack_message ⟨ipk, pn⟩ pk
              (O.create_auth_ack_message ⟨ipk, pn⟩ pk rn)),
          HsEv.addPeerEv
            ⟨⟨ipk, pn⟩, pk,
             (O.derive_secrets ⟨ipk, pn⟩ pk n1 rn ephem msgF
               (O.encrypt_auth_ack_message ⟨ipk, pn⟩ pk
                 (O.create_auth_ack_message ⟨ipk, pn⟩ pk rn))).1,
             (O.derive_secrets ⟨ipk, pn⟩ pk n1 rn ephem msgF
               (O.encrypt_auth_ack_message ⟨ipk, pn⟩ pk
                 (O.create_auth_ack_message ⟨ipk, pn⟩ pk rn))).2.1,
             (O.derive_secrets ⟨ipk, pn⟩ pk n1 rn ephem msgF
               (O.encrypt_auth_ack_message ⟨ipk, pn⟩ pk
                 (O.create_auth_ack_message ⟨ipk, pn⟩ pk rn))).2.2.1,
             (O.derive_secrets ⟨ipk, pn⟩ pk n1 rn ephem msgF
               (O.encrypt_auth_ack_message ⟨ipk, pn⟩ pk
                 (O.create_auth_ack_message ⟨ipk, pn⟩ pk rn))).2.2.2⟩]) := by
  simp only [receive_handshake, h]

lemma mem_receive_handshake_of_mem_authAttempt (O : HsOracle) (pk : Bytes)
    (pn : Address) (rn : Bytes) (stream : Bytes) (s : Server) (e : HsEv)
    (h : e ∈ (authAttempt O.crypto pk stream).2.2) :
    e ∈ (receive_handshake O pk pn rn stream s).2.2 := by
  unfold receive_handshake
  rcases hA : authAttempt O.crypto pk stream with ⟨res, m, evs⟩
  rw [hA] at h
  simp only at h
  cases res with
  | error e' => exact h
  | ok p =>
      rcases p with ⟨ephem, n1, ipk⟩
      simp only
      exact List.mem_append_left _ h

lemma authAttempt_min_length (C : Crypto) (pk stream : Bytes)
    (hlen : stream.length = ENCRYPTED_AUTH_MSG_LEN)
    (hfail : C.decode_auth_plain stream pk = .error .decryptionError) :
    authAttempt C pk stream =
      (.error .decryptionError, stream,
       [HsEv.readEv (ENCRYPTED_AUTH_MSG_LEN : Int) stream,
        HsEv.dec (DecodeEv.plainCall stream),
        HsEv.readEv
          ((big_endian_to_int (stream.take 2) : Int) - (ENCRYPTED_AUTH_MSG_LEN : Int) + 2) [],
        HsEv.dec (DecodeEv.plainCall stream)]) := by
  have htake : stream.take ENCRYPTED_AUTH_MSG_LEN = stream := by
    rw [← hlen]
    exact List.take_length stream
  have hdrop : stream.drop ENCRYPTED_AUTH_MSG_LEN = [] := by
    rw [← hlen]
    exact List.drop_length stream
  have hdec : decode_authentication C stream pk =
      (.error .decryptionError, [DecodeEv.plainCall stream]) :=
    decode_authentication_plain_err C stream pk .decryptionError hlen hfail
  have hdect : decode_authentication C (stream.take ENCRYPTED_AUTH_MSG_LEN) pk =
      (.error .decryptionError, [DecodeEv.plainCall stream]) := by
    rw [htake]
    exact hdec
  have hA := authAttempt_fallback C pk stream _ hdect
  simp only [htake, hdrop, streamRead_nil, List.append_nil] at hA
  rw [hdec] at hA
  simpa using hA

/-- C1: when the total wire length is exactly `ENCRYPTED_AUTH_MSG_LEN` and
the plain decoder raises a decryption error, the handshake attempts the
plain decoding first and the failure is terminal: the result is that
decryption error and the trace contains no extended-format (EIP8) decode
attempt (the fallback re-reads nothing at EOF, so the retry dispatches to
the plain decoder again). -/
theorem receive_handshake_min_length_no_eip8 (O : HsOracle) (pk : Bytes)
    (pn : Address) (rn : Bytes) (stream : Bytes) (s : Server)
    (hlen : stream.length = ENCRYPTED_AUTH_MSG_LEN)
    (hfail : O.crypto.decode_auth_plain stream pk = .error .decryptionError) :
    (receive_handshake O pk pn rn stream s).2.2 =
      [HsEv.readEv (ENCRYPTED_AUTH_MSG_LEN : Int) stream,
       HsEv.dec (DecodeEv.plainCall stream),
       HsEv.readEv
         ((big_endian_to_int (stream.take 2) : Int) - (ENCRYPTED_AUTH_MSG_LEN : Int) + 2) [],
       HsEv.dec (DecodeEv.plainCall stream)] ∧
    (receive_handshake O pk pn rn stream s).1 = .error .decryptionError ∧
    hasEip8Call (receive_handshake O pk pn rn stream s).2.2 = false := by
  have hA := authAttempt_min_length O.crypto pk stream hlen hfail
  have herr : (authAttempt O.crypto pk stream).1 = .error .decryptionError := by
    rw [hA]
  have hR := receive_handshake_error_case O pk pn rn stream s .decryptionError herr
  rw [hR]
  refine ⟨?_, rfl, ?_⟩
  · rw [hA]
  · rw [hA]
    rfl

/-- Witness for C1: an all-zero minimum-length stream against an oracle
whose plain decoder always raises a decryption error. -/
theorem receive_handshake_min_length_no_eip8_witness :
    minLenStream.length = ENCRYPTED_AUTH_MSG_LEN ∧
    failOracle.crypto.decode_auth_plain minLenStream pk0 = .error .decryptionError ∧
    ((receive_handshake failOracle pk0 addr0 rn0 minLenStream mkServer).1 =
        .error .decryptionError ∧
     hasEip8Call (receive_handshake failOracle pk0 addr0 rn0 minLenStream mkServer).2.2 =
        false) := by
  have h := receive_handshake_min_length_no_eip8 failOracle pk0 addr0 rn0 minLenStream
    mkServer (by decide) (by rfl)
  exact ⟨by decide, by rfl, h.2.1, h.2.2⟩

/-- C3 counterexample: a minimum-length wire whose leading bytes declare a
total size of 356 (`remaining = 51`) and whose plain decode fails with a
decryption error.  The fallback read request for 51 bytes returns zero
bytes (the stream is at EOF), and the retry dispatches to the plain
decoder: no extended (EIP8) decode attempt occurs, refuting the claim that
every first-attempt decryption failure reads exactly
`declared - ENCRYPTED_AUTH_MSG_LEN + 2` additional bytes and retries on
the EIP8 path. -/
theorem receive_handshake_fallback_not_eip8_cex :
    failOracle.crypto.decode_auth_plain (c3CexStream.take ENCRYPTED_AUTH_MSG_LEN) pk0 =
      .error .decryptionError ∧
    HsEv.readEv 51 [] ∈ (receive_handshake failOracle pk0 addr0 rn0 c3CexStream mkServer).2.2 ∧
    hasEip8Call (receive_handshake failOracle pk0 addr0 rn0 c3CexStream mkServer).2.2 =
      false :=
  ⟨by rfl, by decide, by decide⟩

/-- C3 (amended): on a first-attempt decryption failure the server
reinterprets the first two bytes of the already-read buffer as a
big-endian total-length field and issues a read for
`declared - ENCRYPTED_AUTH_MSG_LEN + 2` further bytes, obtaining `more`
(at most that many bytes: fewer at EOF, all remaining stream bytes when
the count is negative), appends them, and retries `decode_authentication`
on the concatenated buffer; the retry takes the extended (EIP8) path
exactly when at least one additional byte was obtained, and otherwise
dispatches to the plain decoder again with no EIP8 attempt anywhere. -/
theorem receive_handshake_fallback_read_and_dispatch (O : HsOracle) (pk : Bytes)
    (pn : Address) (rn : Bytes) (stream : Bytes) (s : Server)
    (remaining : Int) (more : Bytes)
    (hlen : ENCRYPTED_AUTH_MSG_LEN ≤ stream.length)
    (hfail : O.crypto.decode_auth_plain (stream.take ENCRYPTED_AUTH_MSG_LEN) pk =
               .error .decryptionError)
    (hrem : remaining =
              (big_endian_to_int (stream.take 2) : Int) - (ENCRYPTED_AUTH_MSG_LEN : Int) + 2)
    (hmore : more = (streamRead (stream.drop ENCRYPTED_AUTH_MSG_LEN) remaining).1) :
    HsEv.readEv remaining more ∈ (receive_handshake O pk pn rn stream s).2.2 ∧
    (if more = [] then
       HsEv.dec (DecodeEv.plainCall (stream.take ENCRYPTED_AUTH_MSG_LEN ++ more)) ∈
           (receive_handshake O pk pn rn stream s).2.2 ∧
       hasEip8Call (receive_handshake O pk pn rn stream s).2.2 = false
     else
       HsEv.dec (DecodeEv.eip8Call (stream.take ENCRYPTED_AUTH_MSG_LEN ++ more)) ∈
           (receive_handshake O pk pn rn stream s).2.2) := by
  have hmsglen : (stream.take ENCRYPTED_AUTH_MSG_LEN).length = ENCRYPTED_AUTH_MSG_LEN := by
    rw [List.length_take]
    omega
  have htt : (stream.take ENCRYPTED_AUTH_MSG_LEN).take 2 = stream.take 2 := by
    rw [List.take_take]
    norm_num [ENCRYPTED_AUTH_MSG_LEN]
  have hdec := decode_authentication_plain_err O.crypto (stream.take ENCRYPTED_AUTH_MSG_LEN)
    pk .decryptionError hmsglen hfail
  have hA := authAttempt_fallback O.crypto pk stream _ hdec
  simp only [htt] at hA
  rw [← hrem] at hA
  rw [← hmore] at hA
  have hmem1 : HsEv.readEv remaining more ∈ (authAttempt O.crypto pk stream).2.2 := by
    rw [hA]
    exact List.mem_append_right _ (List.mem_cons_self _ _)
  refine ⟨mem_receive_handshake_of_mem_authAttempt O pk pn rn stream s _ hmem1, ?_⟩
  by_cases hm : more = []
  · rw [if_pos hm]
    rw [hm] at hA
    rw [List.append_nil] at hA
    rw [hdec] at hA
    have herr : (authAttempt O.crypto pk stream).1 = .error .decryptionError := by
      rw [hA]
    have hR := receive_handshake_error_case O pk pn rn stream s .decryptionError herr
    rw [hR]
    constructor
    · rw [hA]
      simp [hm]
    · rw [hA]
      simp [hasEip8Call, isEip8Ev]
  · rw [if_neg hm]
    have hlen2 : ENCRYPTED_AUTH_MSG_LEN <
        (stream.take ENCRYPTED_AUTH_MSG_LEN ++ more).length := by
      rw [List.length_append, hmsglen]
      have hpos : 0 < more.length := List.length_pos.mpr hm
      omega
    have hmem2 : DecodeEv.eip8Call (stream.take ENCRYPTED_AUTH_MSG_LEN ++ more) ∈
        (decode_authentication O.crypto (stream.take ENCRYPTED_AUTH_MSG_LEN ++ more) pk).2 := by
      rcases hd : O.crypto.decode_auth_eip8 (stream.take ENCRYPTED_AUTH_MSG_LEN ++ more) pk
        with e' | ⟨sig, ipk, nonce, v⟩
      · rw [decode_authentication_eip8_err O.crypto _ pk e' hlen2 hd]
        simp
      · rw [decode_authentication_eip8_ok O.crypto _ pk sig ipk nonce v hlen2 hd]
        simp
    have hmem3 : HsEv.dec (DecodeEv.eip8Call (stream.take ENCRYPTED_AUTH_MSG_LEN ++ more)) ∈
        (authAttempt O.crypto pk stream).2.2 := by
      rw [hA]
      refine List.mem_append_right _ (List.mem_cons_of_mem _ ?_)
      exact List.mem_map_of_mem _ hmem2
    exact mem_receive_handshake_of_mem_authAttempt O pk pn rn stream s _ hmem3

/-- Witness for the amended C3: a 317-byte stream declaring 315, so the
fallback reads exactly 10 further bytes and the retry takes the EIP8
path. -/
theorem receive_handshake_fallback_read_and_dispatch_witness :
    (ENCRYPTED_AUTH_MSG_LEN ≤ c3WitStream.length ∧
     failOracle.crypto.decode_auth_plain (c3WitStream.take ENCRYPTED_AUTH_MSG_LEN) pk0 =
       .error .decryptionError) ∧
    (HsEv.readEv 10 (List.replicate 10 7) ∈
       (receive_handshake failOracle pk0 addr0 rn0 c3WitStream mkServer).2.2 ∧
     if (List.replicate 10 7 : Bytes) = [] then
       HsEv.dec (DecodeEv.plainCall
           (c3WitStream.take ENCRYPTED_AUTH_MSG_LEN ++ List.replicate 10 7)) ∈
         (receive_handshake failOracle pk0 addr0 rn0 c3WitStream mkServer).2.2 ∧
       hasEip8Call (receive_handshake failOracle pk0 addr0 rn0 c3WitStream mkServer).2.2 =
         false
     else
       HsEv.dec (DecodeEv.eip8Call
           (c3WitStream.take ENCRYPTED_AUTH_MSG_LEN ++ List.replicate 10 7)) ∈
         (receive_handshake failOracle pk0 addr0 rn0 c3WitStream mkServer).2.2) :=
  ⟨⟨by decide, by rfl⟩,
   receive_handshake_fallback_read_and_dispatch failOracle pk0 addr0 rn0 c3WitStream mkServer
     10 (List.replicate 10 7) (by decide) (by rfl) (by decide) (by decide)⟩

lemma failCrypto_eip8_selfDescribing :
    ∀ ct r, failCrypto.decode_auth_eip8 ct pk0 = .ok r →
      big_endian_to_int (ct.take 2) + 2 = ct.length := by
  intro ct r h
  by_cases hc : big_endian_to_int (ct.take 2) + 2 = ct.length
  · exact hc
  · simp [failCrypto, hc] at h

/-- C4: when the first plain decode fails with a decryption error and the
declared total length makes the fallback's remaining count negative, the
handshake fails (no successful decode results): the negative-count read
returns whatever the stream still holds, so the retried buffer is the
whole stream, and — under the spec-modelled property that the extended
decoder only succeeds when the leading two bytes consistently declare the
buffer's total size — the retry cannot succeed; the server state is
unchanged and no peer is registered. -/
theorem receive_handshake_negative_remaining_fails (O : HsOracle) (pk : Bytes)
    (pn : Address) (rn : Bytes) (stream : Bytes) (s : Server)
    (hlen : ENCRYPTED_AUTH_MSG_LEN ≤ stream.length)
    (hfail : O.crypto.decode_auth_plain (stream.take ENCRYPTED_AUTH_MSG_LEN) pk =
               .error .decryptionError)
    (hneg : (big_endian_to_int (stream.take 2) : Int) - (ENCRYPTED_AUTH_MSG_LEN : Int) + 2 < 0)
    (hsd : ∀ ct r, O.crypto.decode_auth_eip8 ct pk = .ok r →
             big_endian_to_int (ct.take 2) + 2 = ct.length) :
    exceptIsOk (receive_handshake O pk pn rn stream s).1 = false ∧
    (receive_handshake O pk pn rn stream s).2.1 = s ∧
    countAddPeer (receive_handshake O pk pn rn stream s).2.2 = 0 := by
  have hmsglen : (stream.take ENCRYPTED_AUTH_MSG_LEN).length = ENCRYPTED_AUTH_MSG_LEN := by
    rw [List.length_take]
    omega
  have htt : (stream.take ENCRYPTED_AUTH_MSG_LEN).take 2 = stream.take 2 := by
    rw [List.take_take]
    norm_num [ENCRYPTED_AUTH_MSG_LEN]
  have hdec := decode_authentication_plain_err O.crypto (stream.take ENCRYPTED_AUTH_MSG_LEN)
    pk .decryptionError hmsglen hfail
  have hA := authAttempt_fallback O.crypto pk stream _ hdec
  simp only [htt, streamRead_neg _ _ hneg, List.take_append_drop] at hA
  have hsecond : ∃ e2 : AuthErr, (decode_authentication O.crypto stream pk).1 = .error e2 := by
    rcases Nat.lt_or_ge ENCRYPTED_AUTH_MSG_LEN stream.length with hlt | hge2
    · rcases hd : O.crypto.decode_auth_eip8 stream pk with e' | r
      · exact ⟨e', by rw [decode_authentication_eip8_err O.crypto stream pk e' hlt hd]⟩
      · exfalso
        have hbe := hsd stream r hd
        omega
    · have heq : stream.length = ENCRYPTED_AUTH_MSG_LEN := le_antisymm hge2 hlen
      have htake : stream.take ENCRYPTED_AUTH_MSG_LEN = stream := by
        rw [← heq]
        exact List.take_length stream
      rw [htake] at hfail
      exact ⟨.decryptionError,
        by rw [decode_authentication_plain_err O.crypto stream pk .decryptionError heq hfail]⟩
  rcases hsecond with ⟨e2, he2⟩
  have herr : (authAttempt O.crypto pk stream).1 = .error e2 := by
    rw [hA]
    exact he2
  have hR := receive_handshake_error_case O pk pn rn stream s e2 herr
  rw [hR]
  exact ⟨rfl, rfl, (authAttempt_counts O.crypto pk stream).2⟩

/-- Witness for C4: a 310-byte stream whose leading bytes declare 0, so
the fallback's remaining count is negative; with the concrete
self-describing extended decoder the handshake fails and registers no
peer. -/
theorem receive_handshake_negative_remaining_fails_witness :
    ((big_endian_to_int (c4Stream.take 2) : Int) - (ENCRYPTED_AUTH_MSG_LEN : Int) + 2 < 0) ∧
    (exceptIsOk (receive_handshake failOracle pk0 addr0 rn0 c4Stream mkServer).1 = false ∧
     (receive_handshake failOracle pk0 addr0 rn0 c4Stream mkServer).2.1 = mkServer ∧
     countAddPeer (receive_handshake failOracle pk0 addr0 rn0 c4Stream mkServer).2.2 = 0) :=
  ⟨by decide,
   receive_handshake_negative_remaining_fails failOracle pk0 addr0 rn0 c4Stream mkServer
     (by decide) (by rfl) (by decide) failCrypto_eip8_selfDescribing⟩

/-- C7: once the auth decode has succeeded, the rest of the handshake is
the exact event sequence write-ack, drain, derive-secrets, register-peer:
the ack ciphertext is written and drained before `derive_secrets` runs,
`derive_secrets` receives exactly the initiator nonce, responder nonce,
recovered ephemeral pubkey, full auth-init buffer and the just-sent ack
ciphertext, and (since the decode stage performs no derivation) secrets
are derived exactly once in the whole trace. -/
theorem receive_handshake_ack_sent_before_derive (O : HsOracle) (pk : Bytes)
    (pn : Address) (rn : Bytes) (stream : Bytes) (s : Server)
    (ephem n1 ipk msgF : Bytes) (evs : List HsEv) (ack : Bytes) (p : Peer)
    (h : authAttempt O.crypto pk stream = (.ok (ephem, n1, ipk), msgF, evs))
    (hack : ack = O.encrypt_auth_ack_message ⟨ipk, pn⟩ pk
              (O.create_auth_ack_message ⟨ipk, pn⟩ pk rn))
    (hp : p = ⟨⟨ipk, pn⟩, pk,
            (O.derive_secrets ⟨ipk, pn⟩ pk n1 rn ephem msgF ack).1,
            (O.derive_secrets ⟨ipk, pn⟩ pk n1 rn ephem msgF ack).2.1,
            (O.derive_secrets ⟨ipk, pn⟩ pk n1 rn ephem msgF ack).2.2.1,
            (O.derive_secrets ⟨ipk, pn⟩ pk n1 rn ephem msgF ack).2.2.2⟩) :
    receive_handshake O pk pn rn stream s =
      (.ok (), { s with peers := s.peers ++ [p] },
       evs ++ [HsEv.writeEv ack, HsEv.drainEv, HsEv.deriveEv n1 rn ephem msgF ack,
               HsEv.addPeerEv p]) ∧
    countDerive evs = 0 ∧
    countDerive (receive_handshake O pk pn rn stream s).2.2 = 1 := by
  subst hack
  subst hp
  have hR := receive_handshake_ok_case O pk pn rn stream s ephem n1 ipk msgF evs h
  have hevs : countDerive evs = 0 := by
    have hc := (authAttempt_counts O.crypto pk stream).1
    rw [h] at hc
    exact hc
  refine ⟨hR, hevs, ?_⟩
  rw [hR]
  simp only [countDerive] at hevs ⊢
  simp [List.countP_append, List.countP_cons, isDeriveEv, hevs]

/-- Witness for C7: the success path on an all-zero minimum-length stream
with the concrete succeeding oracle. -/
theorem receive_handshake_ack_sent_before_derive_witness :
    (authAttempt okOracle.crypto pk0 minLenStream =
       (.ok ([6], [7], [8]), minLenStream,
        [HsEv.readEv (ENCRYPTED_AUTH_MSG_LEN : Int) minLenStream,
         HsEv.dec (DecodeEv.plainCall minLenStream),
         HsEv.dec (DecodeEv.ecdhCall [8]),
         HsEv.dec (DecodeEv.recoverCall [9] [2])])) ∧
    (receive_handshake okOracle pk0 addr0 rn0 minLenStream mkServer =
       (.ok (),
        { mkServer with peers := mkServer.peers ++
            [⟨⟨[8], addr0⟩, pk0, [7], rn0, [6] ++ minLenStream, [0, 3]⟩] },
        [HsEv.readEv (ENCRYPTED_AUTH_MSG_LEN : Int) minLenStream,
         HsEv.dec (DecodeEv.plainCall minLenStream),
         HsEv.dec (DecodeEv.ecdhCall [8]),
         HsEv.dec (DecodeEv.recoverCall [9] [2])] ++
          [HsEv.writeEv [0, 3], HsEv.drainEv,
           HsEv.deriveEv [7] rn0 [6] minLenStream [0, 3],
           HsEv.addPeerEv ⟨⟨[8], addr0⟩, pk0, [7], rn0, [6] ++ minLenStream, [0, 3]⟩]) ∧
     countDerive
       [HsEv.readEv (ENCRYPTED_AUTH_MSG_LEN : Int) minLenStream,
        HsEv.dec (DecodeEv.plainCall minLenStream),
        HsEv.dec (DecodeEv.ecdhCall [8]),
        HsEv.dec (DecodeEv.recoverCall [9] [2])] = 0 ∧
     countDerive (receive_handshake okOracle pk0 addr0 rn0 minLenStream mkServer).2.2 = 1) :=
  ⟨by rfl,
   receive_handshake_ack_sent_before_derive okOracle pk0 addr0 rn0 minLenStream mkServer
     [6] [7] [8] minLenStream
     [HsEv.readEv (ENCRYPTED_AUTH_MSG_LEN : Int) minLenStream,
      HsEv.dec (DecodeEv.plainCall minLenStream),
      HsEv.dec (DecodeEv.ecdhCall [8]),
      HsEv.dec (DecodeEv.recoverCall [9] [2])]
     [0, 3] ⟨⟨[8], addr0⟩, pk0, [7], rn0, [6] ++ minLenStream, [0, 3]⟩
     (by rfl) (by rfl) (by rfl)⟩

/-- C8: whenever a handshake run fails (any length, decryption, format or
recovery error escaping the decode stage), the server state is returned
unchanged — the peer list and the cancellation token are untouched — and
the trace registers no peer and derives no secrets. -/
theorem receive_handshake_error_no_peer (O : HsOracle) (pk : Bytes) (pn : Address)
    (rn : Bytes) (stream : Bytes) (s : Server)
    (h : exceptIsOk (receive_handshake O pk pn rn stream s).1 = false) :
    (receive_handshake O pk pn rn stream s).2.1 = s ∧
    countAddPeer (receive_handshake O pk pn rn stream s).2.2 = 0 ∧
    countDerive (receive_handshake O pk pn rn stream s).2.2 = 0 := by
  rcases hA : authAttempt O.crypto pk stream with ⟨res, m, evs⟩
  cases res with
  | error e =>
      have herr : (authAttempt O.crypto pk stream).1 = .error e := by
        rw [hA]
      have hR := receive_handshake_error_case O pk pn rn stream s e herr
      rw [hR]
      have hc := authAttempt_counts O.crypto pk stream
      exact ⟨rfl, hc.2, hc.1⟩
  | ok p =>
      rcases p with ⟨ephem, n1, ipk⟩
      have hR := receive_handshake_ok_case O pk pn rn stream s ephem n1 ipk m evs hA
      rw [hR] at h
      simp [exceptIsOk] at h

/-- Witness for C8: the empty stream fails the length check and leaves the
server untouched. -/
theorem receive_handshake_error_no_peer_witness :
    exceptIsOk (receive_handshake failOracle pk0 addr0 rn0 [] mkServer).1 = false ∧
    ((receive_handshake failOracle pk0 addr0 rn0 [] mkServer).2.1 = mkServer ∧
     countAddPeer (receive_handshake failOracle pk0 addr0 rn0 [] mkServer).2.2 = 0 ∧
     countDerive (receive_handshake failOracle pk0 addr0 rn0 [] mkServer).2.2 = 0) :=
  ⟨by rfl,
   receive_handshake_error_no_peer failOracle pk0 addr0 rn0 [] mkServer (by rfl)⟩

/-- C9: on a started server, `stop()` performs exactly, and in this order:
the cancellation-token trigger, the socket close, the wait for the socket
to release its resources, and the peer-registry stop (all after the
closing log line). -/
theorem stop_effects_order (s : Server) (h : s._server = some ()) :
    stopServer s =
      (.ok (), { s with cancel_token_triggered := true },
       [StopEv.logEv, StopEv.triggerEv, StopEv.closeEv, StopEv.waitClosedEv,
        StopEv.poolStopEv]) := by
  simp [stopServer, h]

/-- Witness for C9 on a freshly started server. -/
theorem stop_effects_order_witness :
    (startServer mkServer)._server = some () ∧
    stopServer (startServer mkServer) =
      (.ok (), { startServer mkServer with cancel_token_triggered := true },
       [StopEv.logEv, StopEv.triggerEv, StopEv.closeEv, StopEv.waitClosedEv,
        StopEv.poolStopEv]) :=
  ⟨rfl, stop_effects_order (startServer mkServer) rfl⟩

/-- C10 counterexample: calling `stop()` on a never-started server does
raise, but not before the cancellation token is triggered — when the
`AttributeError` surfaces, the trigger has already happened and the flag
is set, so the failure does not precede the trigger as claimed. -/
theorem stop_without_start_cex :
    exceptIsOk (stopServer mkServer).1 = false ∧
    StopEv.triggerEv ∈ (stopServer mkServer).2.2 ∧
    (stopServer mkServer).2.1.cancel_token_triggered = true := by
  decide

/-- C10 (amended): the listening-socket handle is nullable, `None` on a
fresh server and assigned by `start()`; calling `stop()` before `start()`
raises an `AttributeError` on the `None` handle, but only after the
cancellation token has been triggered; the socket close/wait and the
registry stop never run, leaving the server partially shut down — so
`stop()` has `start()` as a precondition. -/
theorem stop_without_start_triggers_then_raises (s : Server) (h : s._server = none) :
    mkServer._server = none ∧
    (startServer s)._server = some () ∧
    stopServer s =
      (.error .attributeError, { s with cancel_token_triggered := true },
       [StopEv.logEv, StopEv.triggerEv]) := by
  refine ⟨rfl, rfl, ?_⟩
  simp [stopServer, h]

/-- Witness for the amended C10 on a freshly constructed server. -/
theorem stop_without_start_triggers_then_raises_witness :
    mkServer._server = none ∧
    (mkServer._server = none ∧
     (startServer mkServer)._server = some () ∧
     stopServer mkServer =
       (.error .attributeError, { mkServer with cancel_token_triggered := true },
        [StopEv.logEv, StopEv.triggerEv])) :=
  ⟨rfl, stop_without_start_triggers_then_raises mkServer rfl⟩
